import Mathlib

/-!
Verification of the Supabase Migrations Consolidator
(src/consolidate_migrations.py) against its specification.

The tool is sequential file-system orchestration.  We embed it shallowly:

* the migrations directory and the backup root are association lists from
  file name (resp. path relative to the backup root) to file content;
* every stage of the run is a function from the file-system state to a new
  state together with a trace of effect events, plus a success flag that
  models a raised I/O error (state at the failure point is kept);
* interactive input (menu choices, the delete confirmation) is passed in
  as explicit data;
* calls to datetime.now are passed in as explicit timestamp strings.

File contents are Lean strings; Python string tests such as
content.endswith and name.startswith are embedded through the underlying
character lists, which is semantically the test the source performs.
-/

namespace Consolidator

/-- Lookup in an association list of (file name, content) pairs.
Models reading the entry for a name in a directory. -/
def lookupFile (l : List (String × String)) (k : String) : Option String :=
  (l.find? (fun p => p.1 == k)).map (fun p => p.2)

/-- Lookup with a default.  In the embedded runs every lookup with a
default is performed on a name known to be present, so the default is
never observed; the real code would raise on a missing file. -/
def lookupD (l : List (String × String)) (k d : String) : String :=
  (lookupFile l k).getD d

/-- Remove the entry for a name, models os.remove. -/
def removeEntry : List (String × String) → String → List (String × String)
  | [], _ => []
  | p :: l, k => if p.1 == k then removeEntry l k else p :: removeEntry l k

/-- Create or overwrite the entry for a name, models writing a file. -/
def setEntry (l : List (String × String)) (k v : String) : List (String × String) :=
  removeEntry l k ++ [(k, v)]

/-- Embeds the Python test name.endswith(suffix). -/
def strEndsWith (s t : String) : Bool :=
  t.data.isSuffixOf s.data

/-- Embeds the Python test name.startswith(p). -/
def strStartsWith (s t : String) : Bool :=
  t.data.isPrefixOf s.data

/-- Embeds the source test content.endswith a newline character
(line 229 of the source): the last character is a newline. -/
def endsWithNewline (c : String) : Bool :=
  c.data.getLast? == some '\n'

/-- Embeds the Python method str.lower (ASCII case folding, which is all
the tool compares). -/
def strToLower (s : String) : String :=
  ⟨s.data.map Char.toLower⟩

/-- Embeds the Python method str.strip: drop leading and trailing
whitespace. -/
def strStrip (s : String) : String :=
  ⟨((s.data.dropWhile (fun c => c.isWhitespace)).reverse.dropWhile
      (fun c => c.isWhitespace)).reverse⟩

/-- Number of newline characters at the end of a string; used to state
what trailing-newline normalization does. -/
def trailingNewlines (c : String) : Nat :=
  (c.data.reverse.takeWhile (fun ch => ch == '\n')).length

/-- The options record threaded through the run
(source show_menu and main). -/
structure Options where
  backup : Bool
  delete : Bool
  rename : Bool
  timestamp : String
deriving DecidableEq, Repr

/-- File-system state: the migrations directory (which also holds the
consolidated artifact and the transient temp file), whether the backup
root exists, and the files under the backup root keyed by relative path. -/
structure FS where
  migDir : List (String × String)
  backupDirExists : Bool
  backups : List (String × String)
deriving DecidableEq, Repr

/-- Effect events emitted by a run, used for the temporal claims. -/
inductive Event where
  | mkBackupRoot : Event
  | mkBackupSubdir : String → Event
  | copyToBackup : String → String → Event
  | writeTemp : String → Event
  | moveTempToOutput : String → Event
  | copyToMigDir : String → String → Event
  | removeFile : String → Event
  | promptDelete : String → Event
  | warnNoBackup : Event
deriving DecidableEq, Repr

/-- Result of a stage: new state, emitted trace, and whether the stage
completed without raising (ok = false models a propagating I/O error,
with fs the state at the moment it was raised). -/
structure StageOut where
  fs : FS
  trace : List Event
  ok : Bool
deriving DecidableEq, Repr

/-- Sequencing of stages: a failed stage short-circuits the rest,
traces accumulate. -/
def seqStage (s : StageOut) (k : FS → StageOut) : StageOut :=
  if s.ok then
    let r := k s.fs
    ⟨r.fs, s.trace ++ r.trace, r.ok⟩
  else s

/-- Basename of the consolidated artifact inside the migrations
directory (source OUTPUT_FILE). -/
def outputName : String := "consolidated_migration.sql"

/-- Basename of the transient temp file (source TEMP_FILE). -/
def tempName : String := "consolidated_migration.sql.tmp"

/-- The timestamps the run obtains from datetime.now, passed explicitly. -/
structure RunTimes where
  backupTs : String
  headerTs : String
  artifactBackupTs : String
deriving DecidableEq, Repr

/-- File discovery (source lines 177-185): keep entries ending in .sql
whose name does not start with the artifact base name; when a rename is
planned additionally drop the planned init file; sort ascending. -/
def discoverNames (entries : List String) (opts : Options) : List String :=
  let ms := entries.filter
    (fun f => strEndsWith f ".sql" && !(strStartsWith f "consolidated_migration"))
  let ms := if opts.rename then
      ms.filter (fun f => !(strStartsWith f (opts.timestamp ++ "_initial_schema")))
    else ms
  List.insertionSort (fun a b => a ≤ b) ms

/-- The three header-comment delimiter writes of a section
(source lines 219-221 write this line twice around the file name). -/
def delimLine : String := "-- =============================================\n"

/-- Header block written at source lines 202-205. -/
def headerText (first last ts : String) : String :=
  "-- CONSOLIDATED MIGRATION FILE\n" ++
  ("-- This file combines all migrations from " ++ first ++ " through " ++ last ++ "\n") ++
  ("-- Created on " ++ ts ++ "\n") ++
  "-- Created for easier management while preserving original migrations\n\n"

/-- What the loop body at source lines 219-231 writes for one file:
delimiter, file name line, delimiter, the raw content, a newline if the
content does not end in one, and one separator newline. -/
def sectionText (filename content : String) : String :=
  delimLine ++ ("-- " ++ filename ++ "\n") ++ delimLine ++
  content ++ (if endsWithNewline content then "" else "\n") ++ "\n"

/-- Concatenation of the per-file writes, in list order. -/
def sectionsText (readF : String → String) : List String → String
  | [] => ""
  | f :: rest => sectionText f (readF f) ++ sectionsText readF rest

/-- Full content written to the temp file (source lines 200-233). -/
def tempFileContent (hts : String) (names : List String) (readF : String → String) : String :=
  headerText (names.headD "") (names.getLastD "") hts ++ sectionsText readF names

/-- Modelled from the spec: trailing-newline normalization of a section,
exactly one terminating newline added when absent, then one separator
newline. -/
def normalizeContent (c : String) : String :=
  (if endsWithNewline c then c else c ++ "\n") ++ "\n"

/-- Modelled from the spec: one section block of the artifact, a 3-line
delimiter block followed by the normalized source content. -/
def specSectionBlock (filename content : String) : String :=
  delimLine ++ ("-- " ++ filename ++ "\n") ++ delimLine ++ normalizeContent content

/-- Concatenation of a list of blocks. -/
def concatBlocks : List String → String
  | [] => ""
  | b :: rest => b ++ concatBlocks rest

/-- Modelled from the spec: the whole artifact, the 4-line header block
followed by one section block per file in order. -/
def specArtifact (hts : String) (names : List String) (readF : String → String) : String :=
  headerText (names.headD "") (names.getLastD "") hts ++
  concatBlocks (names.map (fun f => specSectionBlock f (readF f)))

/-- Source create_backup_dir (lines 55-59): create the backup root if
absent. -/
def create_backup_dir (fs : FS) : FS × List Event :=
  if fs.backupDirExists then (fs, [])
  else ({fs with backupDirExists := true}, [Event.mkBackupRoot])

/-- Copy loop of source backup_migrations (lines 75-79). -/
def copyAll (sub : String) : List String → FS → FS × List Event
  | [], fs => (fs, [])
  | f :: rest, fs =>
    let c := lookupD fs.migDir f ""
    let fs1 : FS := {fs with backups := setEntry fs.backups (sub ++ "/" ++ f) c}
    let r := copyAll sub rest fs1
    (r.1, Event.copyToBackup (sub ++ "/" ++ f) c :: r.2)

/-- Source backup_migrations (lines 61-82): make the timestamped
subdirectory and copy every discovered file into it. -/
def backup_migrations (ts : String) (names : List String) (fs : FS) : FS × List Event :=
  let sub := "migrations_backup_" ++ ts
  let r := copyAll sub names fs
  (r.1, Event.mkBackupSubdir sub :: r.2)

/-- Backup stage of the run (source lines 194-197). -/
def backupStage (ts : String) (names : List String) (fs : FS) : StageOut :=
  let r1 := create_backup_dir fs
  let r2 := backup_migrations ts names r1.1
  ⟨r2.1, r1.2 ++ r2.2, true⟩

/-- Writing the temp file (source lines 200-233); the contents are read
from the current directory state. -/
def writeTempStage (hts : String) (names : List String) (fs : FS) : StageOut :=
  let content := tempFileContent hts names (fun f => lookupD fs.migDir f "")
  ⟨{fs with migDir := setEntry fs.migDir tempName content},
   [Event.writeTemp content], true⟩

/-- Backing up a pre-existing artifact (source lines 235-242). -/
def backupOldArtifactStage (ts : String) (fs : FS) : StageOut :=
  match lookupFile fs.migDir outputName with
  | some old =>
    let r1 := create_backup_dir fs
    let bpath := "consolidated_migration_" ++ ts ++ ".sql"
    ⟨{r1.1 with backups := setEntry r1.1.backups bpath old},
     r1.2 ++ [Event.copyToBackup bpath old], true⟩
  | none => ⟨fs, [], true⟩

/-- Moving the temp file onto the artifact (source line 245). -/
def moveTempStage (fs : FS) : StageOut :=
  let c := lookupD fs.migDir tempName ""
  ⟨{fs with migDir := setEntry (removeEntry fs.migDir tempName) outputName c},
   [Event.moveTempToOutput c], true⟩

/-- Source rename_to_init (lines 100-117).  On an init-name collision the
old init file is copied to the backup root with a .bak suffix and then
removed, after which the artifact is copied to the init name.  The copy
into the backup root raises when the backup root does not exist
(shutil.copy2 into a missing directory); rename_to_init never creates
the root itself, so in that case the stage fails with the state
unchanged. -/
def rename_to_init (ts : String) (fs : FS) : StageOut :=
  match lookupFile fs.migDir (ts ++ "_initial_schema.sql") with
  | some old =>
    if fs.backupDirExists then
      ⟨{ migDir := setEntry (removeEntry fs.migDir (ts ++ "_initial_schema.sql"))
                     (ts ++ "_initial_schema.sql")
                     (lookupD (removeEntry fs.migDir (ts ++ "_initial_schema.sql")) outputName ""),
         backupDirExists := fs.backupDirExists,
         backups := setEntry fs.backups (ts ++ "_initial_schema.sql" ++ ".bak") old },
       [Event.copyToBackup (ts ++ "_initial_schema.sql" ++ ".bak") old,
        Event.removeFile (ts ++ "_initial_schema.sql"),
        Event.copyToMigDir (ts ++ "_initial_schema.sql")
          (lookupD (removeEntry fs.migDir (ts ++ "_initial_schema.sql")) outputName "")], true⟩
    else ⟨fs, [], false⟩
  | none =>
    ⟨{ migDir := setEntry fs.migDir (ts ++ "_initial_schema.sql")
                   (lookupD fs.migDir outputName ""),
       backupDirExists := fs.backupDirExists,
       backups := fs.backups },
     [Event.copyToMigDir (ts ++ "_initial_schema.sql") (lookupD fs.migDir outputName "")],
     true⟩

/-- Source delete_migrations (lines 84-98): remove each listed file. -/
def delete_migrations : List String → FS → FS × List Event
  | [], fs => (fs, [])
  | f :: rest, fs =>
    let fs1 : FS := {fs with migDir := removeEntry fs.migDir f}
    let r := delete_migrations rest fs1
    (r.1, Event.removeFile f :: r.2)

/-- Delete stage (source lines 255-264): refuse when backup is off,
otherwise prompt and delete only on an answer whose lowercase form is
the single letter y. -/
def deleteStage (opts : Options) (names : List String) (confirm : String) (fs : FS) : StageOut :=
  if !opts.backup then ⟨fs, [Event.warnNoBackup], true⟩
  else if strToLower confirm == "y" then
    let r := delete_migrations names fs
    ⟨r.1, Event.promptDelete confirm :: r.2, true⟩
  else ⟨fs, [Event.promptDelete confirm], true⟩

/-- The stage pipeline of consolidate_migrations once discovery found a
non-empty file list: optional backup, write of the temp file, backup of
a pre-existing artifact, the move into place, optional rename, optional
guarded delete. -/
def runStages (opts : Options) (t : RunTimes) (confirm : String) (names : List String) (fs : FS) : StageOut :=
  seqStage (if opts.backup then backupStage t.backupTs names fs else ⟨fs, [], true⟩) (fun fs1 =>
  seqStage (writeTempStage t.headerTs names fs1) (fun fs2 =>
  seqStage (backupOldArtifactStage t.artifactBackupTs fs2) (fun fs3 =>
  seqStage (moveTempStage fs3) (fun fs4 =>
  seqStage (if opts.rename then rename_to_init opts.timestamp fs4 else ⟨fs4, [], true⟩) (fun fs5 =>
  if opts.delete then deleteStage opts names confirm fs5 else ⟨fs5, [], true⟩)))))

/-- Source consolidate_migrations (lines 166-264): discovery, then the
stage pipeline; an empty discovery result ends the run untouched. -/
def consolidate_migrations (opts : Options) (t : RunTimes) (confirm : String) (fs : FS) : StageOut :=
  if (discoverNames (fs.migDir.map (fun p => p.1)) opts).isEmpty then ⟨fs, [], true⟩
  else runStages opts t confirm (discoverNames (fs.migDir.map (fun p => p.1)) opts) fs

/-- Initial options of the interactive menu (source lines 121-126). -/
def defaultMenuOptions (nowTs : String) : Options :=
  ⟨true, false, false, nowTs⟩

/-- State of the interactive menu loop between two reads of stdin:
either at the main prompt, at the press-enter acknowledgement that
follows the delete-without-backup warning, or at the timestamp prompt
that follows turning rename on. -/
inductive MenuState where
  | choosing : Options → MenuState
  | pressEnter : Options → MenuState
  | tsPrompt : Options → MenuState
deriving DecidableEq, Repr

/-- Source show_menu (lines 119-164), driven by the list of raw input
lines, one consumed per step.  Returns none when the user cancels
(choice 5, sys.exit) or when input is exhausted (the real program would
raise EOFError).  Choices 1 and 2 re-force backup on and move to the
press-enter prompt when the delete-without-backup warning fires; choice
3 moves to the timestamp prompt when rename was just turned on. -/
def show_menu : List String → MenuState → Option Options
  | [], _ => none
  | line :: rest, MenuState.choosing o =>
    let ch := strStrip line
    if ch == "5" then none
    else if ch == "4" then some o
    else if ch == "1" then
      let o1 : Options := {o with backup := !o.backup}
      if o1.delete && !o1.backup then
        show_menu rest (MenuState.pressEnter {o1 with backup := true})
      else show_menu rest (MenuState.choosing o1)
    else if ch == "2" then
      let o1 : Options := {o with delete := !o.delete}
      if o1.delete && !o1.backup then
        show_menu rest (MenuState.pressEnter {o1 with backup := true})
      else show_menu rest (MenuState.choosing o1)
    else if ch == "3" then
      let o1 : Options := {o with rename := !o.rename}
      if o1.rename then show_menu rest (MenuState.tsPrompt o1)
      else show_menu rest (MenuState.choosing o1)
    else show_menu rest (MenuState.choosing o)
  | _ :: rest, MenuState.pressEnter o => show_menu rest (MenuState.choosing o)
  | ts :: rest, MenuState.tsPrompt o =>
    show_menu rest
      (MenuState.choosing (if strStrip ts ≠ "" then {o with timestamp := strStrip ts} else o))

/-- Parsed command-line arguments (source lines 279-286). -/
structure Args where
  backup : Bool
  delete : Bool
  rename : Bool
  timestamp : Option String
  interactive : Bool
deriving DecidableEq, Repr

/-- Python truthiness of the optional -t argument: None and the empty
string are falsy. -/
def tsTruthy : Option String → Bool
  | none => false
  | some s => !(s == "")

/-- Source main, lines 289-297: the menu runs when -i is given or no
flag at all is given; otherwise the options record is built directly
from the flags, with the timestamp defaulting to now. -/
def mainOptions (args : Args) (nowTs : String) (menuInputs : List String) : Option Options :=
  if args.interactive ||
     !(args.backup || args.delete || args.rename || tsTruthy args.timestamp) then
    show_menu menuInputs (MenuState.choosing (defaultMenuOptions nowTs))
  else
    some { backup := args.backup
           delete := args.delete
           rename := args.rename
           timestamp := match args.timestamp with
             | some s => if s == "" then nowTs else s
             | none => nowTs }

end Consolidator

namespace Consolidator

/-! ### Association list lemmas -/

theorem lookupFile_cons (p : String × String) (l : List (String × String)) (k : String) :
    lookupFile (p :: l) k = if p.1 = k then some p.2 else lookupFile l k := by
  by_cases h : p.1 = k <;> simp [lookupFile, List.find?_cons, h]

theorem lookupFile_removeEntry (l : List (String × String)) (k k' : String) :
    lookupFile (removeEntry l k) k' = if k' = k then none else lookupFile l k' := by
  induction l with
  | nil => by_cases h : k' = k <;> simp [removeEntry, lookupFile, h]
  | cons p l ih =>
    by_cases hk : k' = k
    · subst hk
      by_cases hpk : p.1 = k'
      · simp [removeEntry, hpk, ih]
      · simp [removeEntry, hpk, lookupFile_cons, ih]
    · by_cases hpk : p.1 = k
      · have hp' : ¬p.1 = k' := by rw [hpk]; exact fun hc => hk hc.symm
        have hkk : ¬k = k' := fun hc => hk hc.symm
        simp [removeEntry, hpk, lookupFile_cons, hp', ih, hk, hkk]
      · simp [removeEntry, hpk, lookupFile_cons, ih, hk]

theorem lookupFile_removeEntry_self (l : List (String × String)) (k : String) :
    lookupFile (removeEntry l k) k = none := by
  simp [lookupFile_removeEntry]

theorem lookupFile_append (l₁ l₂ : List (String × String)) (k : String) :
    lookupFile (l₁ ++ l₂) k = (lookupFile l₁ k).or (lookupFile l₂ k) := by
  simp only [lookupFile, List.find?_append]
  cases List.find? (fun p => p.1 == k) l₁ <;> simp

theorem lookupFile_setEntry_self (l : List (String × String)) (k v : String) :
    lookupFile (setEntry l k v) k = some v := by
  rw [setEntry, lookupFile_append, lookupFile_removeEntry_self]
  simp [lookupFile_cons, lookupFile]

theorem lookupFile_setEntry_ne (l : List (String × String)) (k v k' : String) (h : k' ≠ k) :
    lookupFile (setEntry l k v) k' = lookupFile l k' := by
  rw [setEntry, lookupFile_append, lookupFile_removeEntry]
  have hkk : ¬k = k' := fun hc => h hc.symm
  have h1 : lookupFile [(k, v)] k' = none := by
    simp [lookupFile_cons, lookupFile, hkk]
  rw [h1, if_neg h]
  cases lookupFile l k' <;> rfl

theorem removeEntry_setEntry (l : List (String × String)) (k v : String) :
    removeEntry (setEntry l k v) k = removeEntry l k := by
  have h2 : ∀ l1 l2, removeEntry (l1 ++ l2) k = removeEntry l1 k ++ removeEntry l2 k := by
    intro l1 l2
    induction l1 with
    | nil => rfl
    | cons p t ih => by_cases hp : p.1 = k <;> simp [removeEntry, hp, ih]
  have h3 : ∀ m, removeEntry (removeEntry m k) k = removeEntry m k := by
    intro m
    induction m with
    | nil => rfl
    | cons p t ih => by_cases hp : p.1 = k <;> simp [removeEntry, hp, ih]
  rw [setEntry, h2, h3]
  simp [removeEntry]

/-! ### Stage bookkeeping lemmas -/

theorem seqStage_true (fs : FS) (tr : List Event) (k : FS → StageOut) :
    seqStage ⟨fs, tr, true⟩ k = ⟨(k fs).fs, tr ++ (k fs).trace, (k fs).ok⟩ := rfl

theorem seqStage_false (fs : FS) (tr : List Event) (k : FS → StageOut) :
    seqStage ⟨fs, tr, false⟩ k = ⟨fs, tr, false⟩ := rfl

theorem copyAll_migDir (sub : String) (names : List String) (fs : FS) :
    (copyAll sub names fs).1.migDir = fs.migDir := by
  induction names generalizing fs with
  | nil => rfl
  | cons f rest ih => simp [copyAll, ih]

theorem copyAll_backupDirExists (sub : String) (names : List String) (fs : FS) :
    (copyAll sub names fs).1.backupDirExists = fs.backupDirExists := by
  induction names generalizing fs with
  | nil => rfl
  | cons f rest ih => simp [copyAll, ih]

theorem backupStage_migDir (ts : String) (names : List String) (fs : FS) :
    (backupStage ts names fs).fs.migDir = fs.migDir := by
  unfold backupStage backup_migrations create_backup_dir
  by_cases h : fs.backupDirExists <;> simp [h, copyAll_migDir]

theorem backupStage_ok (ts : String) (names : List String) (fs : FS) :
    (backupStage ts names fs).ok = true := rfl

theorem backupOldArtifactStage_migDir (ts : String) (fs : FS) :
    (backupOldArtifactStage ts fs).fs.migDir = fs.migDir := by
  unfold backupOldArtifactStage create_backup_dir
  cases lookupFile fs.migDir outputName with
  | none => rfl
  | some old => by_cases h : fs.backupDirExists <;> simp [h]

theorem backupOldArtifactStage_ok (ts : String) (fs : FS) :
    (backupOldArtifactStage ts fs).ok = true := by
  unfold backupOldArtifactStage create_backup_dir
  cases lookupFile fs.migDir outputName with
  | none => rfl
  | some old => by_cases h : fs.backupDirExists <;> simp [h]

theorem delete_migrations_lookup (names : List String) (fs : FS) (k : String) :
    lookupFile (delete_migrations names fs).1.migDir k =
      if k ∈ names then none else lookupFile fs.migDir k := by
  induction names generalizing fs with
  | nil => simp [delete_migrations]
  | cons f rest ih =>
    simp only [delete_migrations]
    rw [ih]
    by_cases hk : k ∈ rest
    · simp [hk]
    · by_cases hf : k = f
      · simp [hk, hf, lookupFile_removeEntry]
      · simp [hk, hf, lookupFile_removeEntry]

theorem rename_to_init_lookup_ne (ts : String) (fs : FS) (name : String)
    (h : name ≠ ts ++ "_initial_schema.sql") :
    lookupFile (rename_to_init ts fs).fs.migDir name = lookupFile fs.migDir name := by
  unfold rename_to_init
  split
  · split
    · simp only
      rw [lookupFile_setEntry_ne _ _ _ _ h, lookupFile_removeEntry, if_neg h]
    · rfl
  · simp only
    rw [lookupFile_setEntry_ne _ _ _ _ h]

theorem rename_to_init_backupDirExists (ts : String) (fs : FS) :
    (rename_to_init ts fs).fs.backupDirExists = fs.backupDirExists := by
  unfold rename_to_init
  split
  · split <;> rfl
  · rfl

theorem rename_to_init_ok_of_no_collision (ts : String) (fs : FS)
    (h : lookupFile fs.migDir (ts ++ "_initial_schema.sql") = none) :
    (rename_to_init ts fs).ok = true := by
  unfold rename_to_init
  rw [h]


/-! ### String facts about the fixed names -/

theorem strGetLast_append (a s : String) (h : s.data ≠ []) :
    (a ++ s).data.getLast? = s.data.getLast? := by
  rw [String.data_append]
  exact List.getLast?_append_of_ne_nil _ h

theorem ne_of_append_not_suffix (a s t : String) (h : s.data.isSuffixOf t.data = false) :
    a ++ s ≠ t := by
  intro hc
  have hs : s.data <:+ t.data := by
    rw [← hc, String.data_append]
    exact List.suffix_append _ _
  rw [← List.isSuffixOf_iff_suffix] at hs
  rw [h] at hs
  exact Bool.false_ne_true hs

theorem initName_ne_outputName (ts : String) :
    ts ++ "_initial_schema.sql" ≠ outputName :=
  ne_of_append_not_suffix ts _ _ (by decide)

theorem initName_ne_tempName (ts : String) :
    ts ++ "_initial_schema.sql" ≠ tempName :=
  ne_of_append_not_suffix ts _ _ (by decide)

theorem tempName_ne_outputName : tempName ≠ outputName := by decide

theorem bak_key_ne_artifact_key (a b : String) :
    a ++ ".bak" ≠ "consolidated_migration_" ++ b ++ ".sql" := by
  intro hc
  have h1 := congrArg (fun s => s.data.getLast?) hc
  simp only at h1
  rw [strGetLast_append a ".bak" (by decide),
      strGetLast_append ("consolidated_migration_" ++ b) ".sql" (by decide)] at h1
  exact absurd h1 (by decide)

theorem strStartsWith_init (ts : String) :
    strStartsWith (ts ++ "_initial_schema.sql") (ts ++ "_initial_schema") = true := by
  unfold strStartsWith
  rw [List.isPrefixOf_iff_prefix, String.data_append, String.data_append]
  have h : ("_initial_schema.sql" : String).data =
      ("_initial_schema" : String).data ++ (".sql" : String).data := rfl
  rw [h, ← List.append_assoc]
  exact List.prefix_append _ _

/-! ### Discovery lemmas -/

theorem discoverNames_sorted (entries : List String) (opts : Options) :
    List.Sorted (fun a b => a ≤ b) (discoverNames entries opts) := by
  unfold discoverNames
  exact List.sorted_insertionSort _ _

theorem discoverNames_mem (entries : List String) (opts : Options) (f : String) :
    f ∈ discoverNames entries opts ↔
      f ∈ entries ∧ strEndsWith f ".sql" = true ∧
      strStartsWith f "consolidated_migration" = false ∧
      (opts.rename = true → strStartsWith f (opts.timestamp ++ "_initial_schema") = false) := by
  unfold discoverNames
  by_cases hr : opts.rename = true
  · rw [List.Perm.mem_iff (List.perm_insertionSort _ _)]
    simp only [hr, if_true, List.mem_filter, Bool.and_eq_true, Bool.not_eq_true']
    tauto
  · rw [List.Perm.mem_iff (List.perm_insertionSort _ _)]
    have hrf : opts.rename = false := by revert hr; cases opts.rename <;> simp
    simp only [hrf, Bool.false_eq_true, if_false, List.mem_filter, Bool.and_eq_true,
               Bool.not_eq_true', false_implies, and_true]

theorem discovered_ne_special (entries : List String) (opts : Options) (f : String)
    (hf : f ∈ discoverNames entries opts) :
    f ≠ outputName ∧ f ≠ tempName ∧
    (opts.rename = true → f ≠ opts.timestamp ++ "_initial_schema.sql") := by
  rw [discoverNames_mem] at hf
  obtain ⟨-, hsql, hcons, hren⟩ := hf
  refine ⟨?_, ?_, ?_⟩
  · intro hc
    rw [hc] at hcons
    exact absurd hcons (by decide)
  · intro hc
    rw [hc] at hcons
    exact absurd hcons (by decide)
  · intro hr hc
    have h2 := hren hr
    rw [hc, strStartsWith_init] at h2
    exact absurd h2 (by decide)

/-! ### Section text algebra -/

theorem sectionText_eq_specSectionBlock (f c : String) :
    sectionText f c = specSectionBlock f c := by
  unfold sectionText specSectionBlock normalizeContent
  by_cases h : endsWithNewline c = true
  · simp [h, String.append_assoc, String.append_empty]
  · simp [h, String.append_assoc]

theorem sectionsText_eq_concat (readF : String → String) (names : List String) :
    sectionsText readF names = concatBlocks (names.map (fun f => specSectionBlock f (readF f))) := by
  induction names with
  | nil => rfl
  | cons f rest ih => simp [sectionsText, concatBlocks, ih, sectionText_eq_specSectionBlock]

theorem tempFileContent_eq_specArtifact (hts : String) (names : List String)
    (readF : String → String) :
    tempFileContent hts names readF = specArtifact hts names readF := by
  unfold tempFileContent specArtifact
  rw [sectionsText_eq_concat]

/-! ### Trailing newline facts -/

theorem trailingNewlines_append_nl (c : String) :
    trailingNewlines (c ++ "\n") = trailingNewlines c + 1 := by
  unfold trailingNewlines
  rw [String.data_append]
  have h : ("\n" : String).data = ['\n'] := rfl
  rw [h, List.reverse_append]
  simp [List.takeWhile_cons]

theorem trailing_zero_of_not_endsWithNewline (c : String) (h : endsWithNewline c = false) :
    trailingNewlines c = 0 := by
  unfold endsWithNewline at h
  unfold trailingNewlines
  rw [← List.head?_reverse] at h
  cases hrev : c.data.reverse with
  | nil => simp
  | cons a t =>
    rw [hrev] at h
    simp only [List.head?] at h
    have ha : (a == '\n') = false := by
      cases hb : a == '\n'
      · rfl
      · rw [(beq_iff_eq.mp hb : a = '\n')] at h
        exact absurd h (by decide)
    simp [List.takeWhile_cons, ha]

theorem trailing_pos_of_endsWithNewline (c : String) (h : endsWithNewline c = true) :
    trailingNewlines c ≠ 0 := by
  unfold endsWithNewline at h
  unfold trailingNewlines
  rw [← List.head?_reverse] at h
  cases hrev : c.data.reverse with
  | nil => rw [hrev] at h; exact absurd h (by decide)
  | cons a t =>
    rw [hrev] at h
    simp only [List.head?] at h
    have ha : (a == '\n') = true := by
      have : a = '\n' := by
        have h2 : some a = some '\n' := beq_iff_eq.mp h
        exact Option.some.inj h2
      rw [this]
      exact beq_self_eq_true _
    simp [List.takeWhile_cons, ha]


/-! ### Claim C9 -/

/-- C9: rename_to_init removes a pre-existing init file only after the .bak
copy succeeded and never creates the backup root; when the backup root does
not exist at an init-name collision, the copy raises and the state is left
exactly unchanged (in particular the pre-existing init file survives). -/
theorem rename_collision_without_root_fails_unchanged (ts : String) (fs : FS) (old : String)
    (hcol : lookupFile fs.migDir (ts ++ "_initial_schema.sql") = some old)
    (hroot : fs.backupDirExists = false) :
    rename_to_init ts fs = ⟨fs, [], false⟩ ∧
    (∀ fs2 : FS, (rename_to_init ts fs2).fs.backupDirExists = fs2.backupDirExists) := by
  constructor
  · unfold rename_to_init
    rw [hcol]
    simp [hroot]
  · exact rename_to_init_backupDirExists ts

/-- Witness for C9 at a concrete state. -/
theorem rename_collision_without_root_fails_unchanged_witness :
    lookupFile [("20240101_initial_schema.sql", "old init")]
        ("20240101" ++ "_initial_schema.sql") = some "old init" ∧
    rename_to_init "20240101" ⟨[("20240101_initial_schema.sql", "old init")], false, []⟩ =
      ⟨⟨[("20240101_initial_schema.sql", "old init")], false, []⟩, [], false⟩ :=
  ⟨by decide,
   (rename_collision_without_root_fails_unchanged "20240101"
      ⟨[("20240101_initial_schema.sql", "old init")], false, []⟩ "old init"
      (by decide) rfl).1⟩

/-! ### Claim C5 -/

/-- C5: when the backup root exists and the init name collides,
rename_to_init first copies the old init file to the backup root with a
.bak suffix, only then removes it, then copies the artifact to the init
name; the trace shows the backup copy strictly before the removal. -/
theorem rename_backs_up_before_replacing (ts : String) (fs : FS) (old art : String)
    (hcol : lookupFile fs.migDir (ts ++ "_initial_schema.sql") = some old)
    (hart : lookupFile fs.migDir outputName = some art)
    (hroot : fs.backupDirExists = true) :
    (rename_to_init ts fs).ok = true ∧
    lookupFile (rename_to_init ts fs).fs.backups
      (ts ++ "_initial_schema.sql" ++ ".bak") = some old ∧
    lookupFile (rename_to_init ts fs).fs.migDir (ts ++ "_initial_schema.sql") = some art ∧
    (rename_to_init ts fs).trace =
      [Event.copyToBackup (ts ++ "_initial_schema.sql" ++ ".bak") old,
       Event.removeFile (ts ++ "_initial_schema.sql"),
       Event.copyToMigDir (ts ++ "_initial_schema.sql") art] := by
  have hne : outputName ≠ ts ++ "_initial_schema.sql" := (initName_ne_outputName ts).symm
  have hart2 : lookupD (removeEntry fs.migDir (ts ++ "_initial_schema.sql")) outputName "" = art := by
    unfold lookupD
    rw [lookupFile_removeEntry, if_neg hne, hart]
    rfl
  unfold rename_to_init
  rw [hcol]
  simp only [hroot, if_true]
  refine ⟨trivial, ?_, ?_, ?_⟩
  · exact lookupFile_setEntry_self _ _ _
  · rw [lookupFile_setEntry_self, hart2]
  · rw [hart2]

/-- Witness for C5 at a concrete state. -/
theorem rename_backs_up_before_replacing_witness :
    (rename_to_init "20240101"
        ⟨[("20240101_initial_schema.sql", "old init"), ("consolidated_migration.sql", "art")],
         true, []⟩).trace =
      [Event.copyToBackup ("20240101" ++ "_initial_schema.sql" ++ ".bak") "old init",
       Event.removeFile ("20240101" ++ "_initial_schema.sql"),
       Event.copyToMigDir ("20240101" ++ "_initial_schema.sql") "art"] :=
  (rename_backs_up_before_replacing "20240101"
      ⟨[("20240101_initial_schema.sql", "old init"), ("consolidated_migration.sql", "art")],
       true, []⟩ "old init" "art" (by decide) (by decide) rfl).2.2.2

/-! ### Claim C8 -/

/-- C8: on the delete path with backup enabled, deletion happens exactly
when the lowercased confirmation input is the single letter y, with the
prompt immediately preceding the removals; any other input leaves the
state untouched. -/
theorem delete_requires_confirmation (opts : Options) (names : List String) (confirm : String)
    (fs : FS) (hb : opts.backup = true) :
    ((strToLower confirm == "y") = true →
       deleteStage opts names confirm fs =
         ⟨(delete_migrations names fs).1,
          Event.promptDelete confirm :: (delete_migrations names fs).2, true⟩) ∧
    ((strToLower confirm == "y") = false →
       deleteStage opts names confirm fs = ⟨fs, [Event.promptDelete confirm], true⟩) := by
  constructor <;> intro h <;> simp [deleteStage, hb, h]

/-- Witness for C8 at concrete inputs. -/
theorem delete_requires_confirmation_witness :
    deleteStage ⟨true, true, false, "T"⟩ ["a.sql"] "no" ⟨[("a.sql", "x")], true, []⟩ =
      ⟨⟨[("a.sql", "x")], true, []⟩, [Event.promptDelete "no"], true⟩ :=
  (delete_requires_confirmation ⟨true, true, false, "T"⟩ ["a.sql"] "no"
      ⟨[("a.sql", "x")], true, []⟩ rfl).2 (by decide)

/-! ### Claim C10 -/

/-- C10: deletion removes exactly the discovered migration list; every
other entry keeps its content, and names that fail the discovery filter
(non-.sql, artifact-basename, or planned-init prefixed when renaming)
are never in that list. -/
theorem delete_exact_frame (fs : FS) (opts : Options) (name : String) :
    (name ∈ discoverNames (fs.migDir.map (fun p => p.1)) opts →
       lookupFile (delete_migrations
         (discoverNames (fs.migDir.map (fun p => p.1)) opts) fs).1.migDir name = none) ∧
    (name ∉ discoverNames (fs.migDir.map (fun p => p.1)) opts →
       lookupFile (delete_migrations
         (discoverNames (fs.migDir.map (fun p => p.1)) opts) fs).1.migDir name =
         lookupFile fs.migDir name) ∧
    (strEndsWith name ".sql" = false ∨ strStartsWith name "consolidated_migration" = true ∨
       (opts.rename = true ∧ strStartsWith name (opts.timestamp ++ "_initial_schema") = true) →
       name ∉ discoverNames (fs.migDir.map (fun p => p.1)) opts) := by
  refine ⟨?_, ?_, ?_⟩
  · intro h
    rw [delete_migrations_lookup]
    simp [h]
  · intro h
    rw [delete_migrations_lookup]
    simp [h]
  · intro h hmem
    rw [discoverNames_mem] at hmem
    obtain ⟨-, hsql, hcons, hren⟩ := hmem
    rcases h with h | h | ⟨h1, h2⟩
    · rw [hsql] at h
      exact absurd h (by decide)
    · rw [hcons] at h
      exact absurd h (by decide)
    · rw [hren h1] at h2
      exact absurd h2 (by decide)

/-- Witness for C10 at a concrete state. -/
theorem delete_exact_frame_witness :
    lookupFile (delete_migrations
      (discoverNames (([("a.sql", "x"), ("consolidated_migration.sql", "c")] : List (String × String)).map (fun p => p.1))
        ⟨true, true, false, "T"⟩)
      ⟨[("a.sql", "x"), ("consolidated_migration.sql", "c")], true, []⟩).1.migDir "a.sql" = none :=
  (delete_exact_frame ⟨[("a.sql", "x"), ("consolidated_migration.sql", "c")], true, []⟩
      ⟨true, true, false, "T"⟩ "a.sql").1 (by decide)

/-! ### Claim C7 -/

/-- C7 as written is refuted: with rename requested, discovery excludes
every file whose name merely starts with the planned init base, not only
the exact planned init filename.  The file below is not the planned init
file 20240101_initial_schema.sql, yet discovery drops it. -/
theorem discovery_exact_name_counterexample :
    ¬ ("20240101_initial_schemaz.sql" ∈
         discoverNames ["20240101_initial_schemaz.sql"] ⟨false, false, true, "20240101"⟩ ↔
       ("20240101_initial_schemaz.sql" ∈ ["20240101_initial_schemaz.sql"] ∧
        strEndsWith "20240101_initial_schemaz.sql" ".sql" = true ∧
        strStartsWith "20240101_initial_schemaz.sql" "consolidated_migration" = false ∧
        "20240101_initial_schemaz.sql" ≠ "20240101" ++ "_initial_schema.sql")) := by
  decide

/-- C7 amended: discovery selects exactly the entries ending in .sql that
do not start with the artifact base name and, when renaming, do not start
with the planned init base {timestamp}_initial_schema; the result is
sorted ascending and discovery is deterministic. -/
theorem discovery_spec (entries : List String) (opts : Options) :
    List.Sorted (fun a b => a ≤ b) (discoverNames entries opts) ∧
    (∀ f, f ∈ discoverNames entries opts ↔
        f ∈ entries ∧ strEndsWith f ".sql" = true ∧
        strStartsWith f "consolidated_migration" = false ∧
        (opts.rename = true → strStartsWith f (opts.timestamp ++ "_initial_schema") = false)) ∧
    discoverNames entries opts = discoverNames entries opts :=
  ⟨discoverNames_sorted entries opts, fun f => discoverNames_mem entries opts f, rfl⟩

/-! ### Claim C6 -/

/-- C6 as written is refuted: a source file whose content already ends in
two newlines keeps them, so its section ends with two blank lines rather
than exactly one. -/
theorem normalization_counterexample :
    trailingNewlines (sectionText "m.sql" "select 1;\n\n") ≠ 2 := by
  decide

/-- C6 amended: a section is the delimiter block followed by the content
with one newline appended exactly when missing plus one separator
newline; content ending in k greater or equal 1 newlines keeps them,
yielding k+1 trailing newlines (2 when the content had none), so more
than one blank line can precede the next section. -/
theorem normalization_amended (f c : String) :
    sectionText f c = specSectionBlock f c ∧
    trailingNewlines (normalizeContent c) =
      (if trailingNewlines c = 0 then 2 else trailingNewlines c + 1) := by
  refine ⟨sectionText_eq_specSectionBlock f c, ?_⟩
  unfold normalizeContent
  by_cases h : endsWithNewline c = true
  · rw [h]
    simp only [if_true]
    rw [trailingNewlines_append_nl]
    rw [if_neg (trailing_pos_of_endsWithNewline c h)]
  · have hf : endsWithNewline c = false := by
      revert h
      cases endsWithNewline c <;> simp
    rw [hf]
    simp only [Bool.false_eq_true, if_false]
    rw [trailingNewlines_append_nl, trailingNewlines_append_nl,
        trailing_zero_of_not_endsWithNewline c hf]
    simp


/-! ### Claim C4 -/

/-- Helper: if the delete-without-backup guard of the menu did not fire,
the record already satisfies delete implies backup. -/
theorem guard_false_inv (o1 : Options) (h : ¬(o1.delete && !o1.backup) = true) :
    o1.delete = true → o1.backup = true := by
  intro hd
  cases hb : o1.backup
  · exact absurd (by rw [hd, hb]; rfl) h
  · rfl

/-- The delete-implies-backup invariant of a menu state. -/
def menuStateInv : MenuState → Prop
  | MenuState.choosing o => o.delete = true → o.backup = true
  | MenuState.pressEnter o => o.delete = true → o.backup = true
  | MenuState.tsPrompt o => o.delete = true → o.backup = true

/-- Invariant preservation of the interactive menu loop: whenever the
menu returns an options record, delete implies backup, provided the
starting state satisfies the invariant. -/
theorem show_menu_preserves_invariant (inputs : List String) :
    ∀ (st : MenuState) (o' : Options), menuStateInv st →
      show_menu inputs st = some o' → (o'.delete = true → o'.backup = true) := by
  induction inputs with
  | nil =>
    intro st o' hinv heq
    cases st <;> simp [show_menu] at heq
  | cons line rest ih =>
    intro st o' hinv heq
    cases st with
    | choosing o =>
      simp only [show_menu] at heq
      split at heq
      · exact Option.noConfusion heq
      split at heq
      · rw [← Option.some.inj heq]
        exact hinv
      split at heq
      · split at heq
        · refine ih _ _ ?_ heq
          intro _
          rfl
        · next hw =>
            refine ih _ _ ?_ heq
            exact guard_false_inv _ hw
      split at heq
      · split at heq
        · refine ih _ _ ?_ heq
          intro _
          rfl
        · next hw =>
            refine ih _ _ ?_ heq
            exact guard_false_inv _ hw
      split at heq
      · split at heq
        · refine ih _ _ ?_ heq
          exact hinv
        · refine ih _ _ ?_ heq
          exact hinv
      · refine ih _ _ ?_ heq
        exact hinv
    | pressEnter o =>
      simp only [show_menu] at heq
      refine ih _ _ ?_ heq
      exact hinv
    | tsPrompt o =>
      simp only [show_menu] at heq
      refine ih _ _ ?_ heq
      by_cases hts : strStrip line ≠ ""
      · rw [if_pos hts]
        exact hinv
      · rw [if_neg hts]
        exact hinv

/-- C4 as written is refuted on the command-line path: main builds the
options record directly from the flags, so a bare -d call constructs
delete = true with backup = false; the invariant is not enforced at
construction there (deletion is only refused later inside
consolidate_migrations). -/
theorem options_invariant_counterexample :
    (mainOptions ⟨false, true, false, none, false⟩ "20240101" []).map
      (fun o => (o.delete, o.backup)) = some (true, false) := by
  decide

/-- C4 amended: delete implies backup holds for every record the
interactive menu returns (the menu re-forces backup on on every toggle
that would break it); records built from command-line flags can violate
it, and the violation is instead refused at deletion time. -/
theorem menu_options_satisfy_invariant (inputs : List String) (nowTs : String) (o : Options)
    (h : show_menu inputs (MenuState.choosing (defaultMenuOptions nowTs)) = some o) :
    o.delete = true → o.backup = true :=
  show_menu_preserves_invariant inputs (MenuState.choosing (defaultMenuOptions nowTs)) o
    (fun _ => rfl) h

/-- Witness for the amended C4 at concrete menu inputs. -/
theorem menu_options_satisfy_invariant_witness :
    show_menu ["2", "4"] (MenuState.choosing (defaultMenuOptions "20240101")) =
      some ⟨true, true, false, "20240101"⟩ ∧
    (⟨true, true, false, "20240101"⟩ : Options).backup = true :=
  ⟨by decide,
   menu_options_satisfy_invariant ["2", "4"] "20240101" _ (by decide) rfl⟩


/-! ### Run-level lemmas -/

theorem seqStage_of_ok (s : StageOut) (k : FS → StageOut) (h : s.ok = true) :
    seqStage s k = ⟨(k s.fs).fs, s.trace ++ (k s.fs).trace, (k s.fs).ok⟩ := by
  unfold seqStage
  rw [h]
  rfl

theorem seqStage_of_err (s : StageOut) (k : FS → StageOut) (h : s.ok = false) :
    seqStage s k = s := by
  unfold seqStage
  rw [h]
  rfl

theorem deleteStage_lookup_not_mem (opts : Options) (names : List String) (confirm : String)
    (fs : FS) (name : String) (h : name ∉ names) :
    lookupFile (deleteStage opts names confirm fs).fs.migDir name =
      lookupFile fs.migDir name := by
  unfold deleteStage
  split
  · rfl
  split
  · simp only
    rw [delete_migrations_lookup, if_neg h]
  · rfl

theorem backupSkip_ok (opts : Options) (ts : String) (names : List String) (fs : FS) :
    (if opts.backup then backupStage ts names fs else ⟨fs, [], true⟩).ok = true := by
  by_cases hb : opts.backup = true
  · rw [if_pos hb]
    rfl
  · rw [if_neg hb]

theorem backupSkip_migDir (opts : Options) (ts : String) (names : List String) (fs : FS) :
    (if opts.backup then backupStage ts names fs else ⟨fs, [], true⟩).fs.migDir = fs.migDir := by
  by_cases hb : opts.backup = true
  · rw [if_pos hb]
    exact backupStage_migDir _ _ _
  · rw [if_neg hb]

theorem runStages_output_content (opts : Options) (t : RunTimes) (confirm : String)
    (names : List String) (fs : FS)
    (hout : outputName ∉ names) :
    lookupFile (runStages opts t confirm names fs).fs.migDir outputName =
      some (tempFileContent t.headerTs names (fun f => lookupD fs.migDir f "")) := by
  unfold runStages
  rw [seqStage_of_ok _ _ (backupSkip_ok opts t.backupTs names fs),
      seqStage_of_ok _ _ rfl,
      seqStage_of_ok _ _ (backupOldArtifactStage_ok _ _),
      seqStage_of_ok _ _ rfl]
  simp only
  have h6 : ∀ fs5 : FS,
      lookupFile (if opts.delete then deleteStage opts names confirm fs5
        else ⟨fs5, [], true⟩).fs.migDir outputName = lookupFile fs5.migDir outputName := by
    intro fs5
    by_cases hd : opts.delete = true
    · rw [if_pos hd]
      exact deleteStage_lookup_not_mem _ _ _ _ _ hout
    · rw [if_neg hd]
  have h5 : ∀ fs4 : FS,
      lookupFile (if opts.rename then rename_to_init opts.timestamp fs4
        else ⟨fs4, [], true⟩).fs.migDir outputName = lookupFile fs4.migDir outputName := by
    intro fs4
    by_cases hr : opts.rename = true
    · rw [if_pos hr]
      exact rename_to_init_lookup_ne _ _ _ (initName_ne_outputName _).symm
    · rw [if_neg hr]
  have hmove : ∀ fs3 : FS,
      lookupFile (moveTempStage fs3).fs.migDir outputName =
        some (lookupD fs3.migDir tempName "") := by
    intro fs3
    unfold moveTempStage
    simp only
    exact lookupFile_setEntry_self _ _ _
  have htempc :
      lookupD (backupOldArtifactStage t.artifactBackupTs
          (writeTempStage t.headerTs names
            (if opts.backup then backupStage t.backupTs names fs
              else ⟨fs, [], true⟩).fs).fs).fs.migDir tempName "" =
        tempFileContent t.headerTs names (fun f => lookupD fs.migDir f "") := by
    rw [backupOldArtifactStage_migDir]
    unfold writeTempStage
    simp only
    unfold lookupD
    rw [lookupFile_setEntry_self]
    simp only [Option.getD_some]
    rw [backupSkip_migDir]
  set s1 := if opts.backup then backupStage t.backupTs names fs else ⟨fs, [], true⟩ with hs1
  set s2 := writeTempStage t.headerTs names s1.fs with hs2
  set s3 := backupOldArtifactStage t.artifactBackupTs s2.fs with hs3
  set s4 := moveTempStage s3.fs with hs4
  set s5 := if opts.rename then rename_to_init opts.timestamp s4.fs else ⟨s4.fs, [], true⟩ with hs5
  cases hok : s5.ok
  · rw [seqStage_of_err _ _ hok]
    rw [hs5] at hok ⊢
    rw [h5 s4.fs, hs4, hmove s3.fs, htempc]
  · rw [seqStage_of_ok _ _ hok]
    simp only
    rw [h6, hs5, h5 s4.fs, hs4, hmove s3.fs, htempc]


/-! ### Claim C1 -/

/-- C1: for a non-empty discovery result, the run leaves the consolidated
artifact equal to the 4-line header followed by exactly N section
blocks, one per discovered file, in ascending sorted filename order,
each block a 3-line delimiter followed by the source content up to
trailing-newline normalization. -/
theorem consolidated_artifact_structure (opts : Options) (t : RunTimes) (confirm : String)
    (fs : FS) (names : List String)
    (hnames : discoverNames (fs.migDir.map (fun p => p.1)) opts = names)
    (hne : names ≠ []) :
    lookupFile (consolidate_migrations opts t confirm fs).fs.migDir outputName =
      some (specArtifact t.headerTs names (fun f => lookupD fs.migDir f "")) ∧
    (names.map (fun f => specSectionBlock f (lookupD fs.migDir f ""))).length = names.length ∧
    List.Sorted (fun a b => a ≤ b) names := by
  have hout : outputName ∉ names := by
    intro hmem
    rw [← hnames] at hmem
    exact (discovered_ne_special _ _ _ hmem).1 rfl
  have hempty : names.isEmpty = false := by
    cases names with
    | nil => exact absurd rfl hne
    | cons a l => rfl
  refine ⟨?_, List.length_map _ _, hnames ▸ discoverNames_sorted _ _⟩
  unfold consolidate_migrations
  rw [hnames, hempty]
  simp only [Bool.false_eq_true, if_false]
  rw [runStages_output_content opts t confirm names fs hout,
      tempFileContent_eq_specArtifact]

/-- Witness for C1 at a concrete one-file state. -/
theorem consolidated_artifact_structure_witness :
    lookupFile (consolidate_migrations ⟨true, false, false, "TS"⟩ ⟨"B", "H", "A"⟩ "n"
        ⟨[("20240101_a.sql", "create table a();")], false, []⟩).fs.migDir outputName =
      some (specArtifact "H" ["20240101_a.sql"]
        (fun f => lookupD [("20240101_a.sql", "create table a();")] f "")) :=
  (consolidated_artifact_structure ⟨true, false, false, "TS"⟩ ⟨"B", "H", "A"⟩ "n"
      ⟨[("20240101_a.sql", "create table a();")], false, []⟩ ["20240101_a.sql"]
      (by decide) (by decide)).1


/-! ### Claim C2 -/

theorem deleteStage_no_backup (opts : Options) (names : List String) (confirm : String)
    (fs : FS) (hb : opts.backup = false) :
    deleteStage opts names confirm fs = ⟨fs, [Event.warnNoBackup], true⟩ := by
  unfold deleteStage
  rw [hb]
  rfl

theorem runStages_lookup_preserved (opts : Options) (t : RunTimes) (confirm : String)
    (names : List String) (fs : FS) (f : String)
    (hf_out : f ≠ outputName) (hf_tmp : f ≠ tempName)
    (hf_init : opts.rename = true → f ≠ opts.timestamp ++ "_initial_schema.sql")
    (hf_del : opts.backup = false ∨ f ∉ names) :
    lookupFile (runStages opts t confirm names fs).fs.migDir f = lookupFile fs.migDir f := by
  unfold runStages
  rw [seqStage_of_ok _ _ (backupSkip_ok opts t.backupTs names fs),
      seqStage_of_ok _ _ rfl,
      seqStage_of_ok _ _ (backupOldArtifactStage_ok _ _),
      seqStage_of_ok _ _ rfl]
  simp only
  have h6 : ∀ fs5 : FS,
      lookupFile (if opts.delete then deleteStage opts names confirm fs5
        else ⟨fs5, [], true⟩).fs.migDir f = lookupFile fs5.migDir f := by
    intro fs5
    by_cases hd : opts.delete = true
    · rw [if_pos hd]
      rcases hf_del with hb | hmem
      · rw [deleteStage_no_backup _ _ _ _ hb]
      · exact deleteStage_lookup_not_mem _ _ _ _ _ hmem
    · rw [if_neg hd]
  have h5 : ∀ fs4 : FS,
      lookupFile (if opts.rename then rename_to_init opts.timestamp fs4
        else ⟨fs4, [], true⟩).fs.migDir f = lookupFile fs4.migDir f := by
    intro fs4
    by_cases hr : opts.rename = true
    · rw [if_pos hr]
      exact rename_to_init_lookup_ne _ _ _ (hf_init hr)
    · rw [if_neg hr]
  have hmove : ∀ fs3 : FS,
      lookupFile (moveTempStage fs3).fs.migDir f = lookupFile fs3.migDir f := by
    intro fs3
    unfold moveTempStage
    simp only
    rw [lookupFile_setEntry_ne _ _ _ _ hf_out, lookupFile_removeEntry, if_neg hf_tmp]
  have hw : ∀ fs1 : FS,
      lookupFile (writeTempStage t.headerTs names fs1).fs.migDir f =
        lookupFile fs1.migDir f := by
    intro fs1
    unfold writeTempStage
    simp only
    rw [lookupFile_setEntry_ne _ _ _ _ hf_tmp]
  set s1 := if opts.backup then backupStage t.backupTs names fs else ⟨fs, [], true⟩ with hs1
  set s2 := writeTempStage t.headerTs names s1.fs with hs2
  set s3 := backupOldArtifactStage t.artifactBackupTs s2.fs with hs3
  set s4 := moveTempStage s3.fs with hs4
  set s5 := if opts.rename then rename_to_init opts.timestamp s4.fs else ⟨s4.fs, [], true⟩ with hs5
  have hchain : lookupFile s4.fs.migDir f = lookupFile fs.migDir f := by
    rw [hs4, hmove s3.fs, hs3, backupOldArtifactStage_migDir, hs2, hw s1.fs, hs1,
        backupSkip_migDir]
  cases hok : s5.ok
  · rw [seqStage_of_err _ _ hok]
    rw [hs5, h5 s4.fs]
    exact hchain
  · rw [seqStage_of_ok _ _ hok]
    simp only
    rw [h6, hs5, h5 s4.fs]
    exact hchain

theorem backupOldArtifactStage_trace_events (ts : String) (fs : FS) :
    ∀ e ∈ (backupOldArtifactStage ts fs).trace,
      e = Event.mkBackupRoot ∨ ∃ p c, e = Event.copyToBackup p c := by
  intro e he
  unfold backupOldArtifactStage at he
  split at he
  · unfold create_backup_dir at he
    split at he
    · simp at he
      exact Or.inr ⟨_, _, he⟩
    · simp at he
      rcases he with he | he
      · exact Or.inl he
      · exact Or.inr ⟨_, _, he⟩
  · simp at he

theorem rename_to_init_trace_events (ts : String) (fs : FS) :
    ∀ e ∈ (rename_to_init ts fs).trace,
      (∃ p c, e = Event.copyToBackup p c) ∨ (∃ n, e = Event.removeFile n) ∨
      (∃ n c, e = Event.copyToMigDir n c) := by
  intro e he
  unfold rename_to_init at he
  split at he
  · split at he
    · simp at he
      rcases he with he | he | he
      · exact Or.inl ⟨_, _, he⟩
      · exact Or.inr (Or.inl ⟨_, he⟩)
      · exact Or.inr (Or.inr ⟨_, _, he⟩)
    · simp at he
  · simp at he
    exact Or.inr (Or.inr ⟨_, _, he⟩)

theorem runStages_no_prompt_without_backup (opts : Options) (t : RunTimes) (confirm : String)
    (names : List String) (fs : FS) (hb : opts.backup = false) :
    ∀ e ∈ (runStages opts t confirm names fs).trace, ∀ r : String,
      e ≠ Event.promptDelete r := by
  unfold runStages
  have hbneg : ¬opts.backup = true := by
    rw [hb]
    exact Bool.false_ne_true
  rw [if_neg hbneg]
  rw [seqStage_of_ok _ _ rfl,
      seqStage_of_ok _ _ rfl,
      seqStage_of_ok _ _ (backupOldArtifactStage_ok _ _),
      seqStage_of_ok _ _ rfl]
  simp only
  set s2 := writeTempStage t.headerTs names (⟨fs, [], true⟩ : StageOut).fs with hs2
  set s3 := backupOldArtifactStage t.artifactBackupTs s2.fs with hs3
  set s4 := moveTempStage s3.fs with hs4
  set s5 := if opts.rename then rename_to_init opts.timestamp s4.fs else ⟨s4.fs, [], true⟩ with hs5
  have h2 : ∀ e ∈ s2.trace, ∀ r : String, e ≠ Event.promptDelete r := by
    intro e he r
    rw [hs2] at he
    unfold writeTempStage at he
    simp at he
    rw [he]
    exact fun hc => Event.noConfusion hc
  have h3 : ∀ e ∈ s3.trace, ∀ r : String, e ≠ Event.promptDelete r := by
    intro e he r
    rw [hs3] at he
    rcases backupOldArtifactStage_trace_events _ _ e he with h | ⟨p, c, h⟩ <;>
      rw [h] <;> exact fun hc => Event.noConfusion hc
  have h4 : ∀ e ∈ s4.trace, ∀ r : String, e ≠ Event.promptDelete r := by
    intro e he r
    rw [hs4] at he
    unfold moveTempStage at he
    simp at he
    rw [he]
    exact fun hc => Event.noConfusion hc
  have h5 : ∀ e ∈ s5.trace, ∀ r : String, e ≠ Event.promptDelete r := by
    intro e he r
    rw [hs5] at he
    by_cases hr : opts.rename = true
    · rw [if_pos hr] at he
      rcases rename_to_init_trace_events _ _ e he with ⟨p, c, h⟩ | ⟨n, h⟩ | ⟨n, c, h⟩ <;>
        rw [h] <;> exact fun hc => Event.noConfusion hc
    · rw [if_neg hr] at he
      simp at he
  have h6 : ∀ fs5 : FS, ∀ e ∈ (if opts.delete then deleteStage opts names confirm fs5
      else ⟨fs5, [], true⟩).trace, ∀ r : String, e ≠ Event.promptDelete r := by
    intro fs5 e he r
    by_cases hd : opts.delete = true
    · rw [if_pos hd, deleteStage_no_backup _ _ _ _ hb] at he
      simp at he
      rw [he]
      exact fun hc => Event.noConfusion hc
    · rw [if_neg hd] at he
      simp at he
  cases hok : s5.ok
  · rw [seqStage_of_err _ _ hok]
    intro e he r
    simp only [List.nil_append, List.mem_append] at he
    rcases he with he | he | he | he
    · exact h2 e he r
    · exact h3 e he r
    · exact h4 e he r
    · exact h5 e he r
  · rw [seqStage_of_ok _ _ hok]
    intro e he r
    simp only [List.nil_append, List.mem_append] at he
    rcases he with he | he | he | he | he
    · exact h2 e he r
    · exact h3 e he r
    · exact h4 e he r
    · exact h5 e he r
    · exact h6 s5.fs e he r

/-- C2 as written is refuted: with delete requested and backup off the
run refuses the deletion, but it still writes the consolidated artifact
into the migrations directory, so the directory is not left with an
identical file count. -/
theorem delete_without_backup_counterexample :
    (consolidate_migrations ⟨false, true, false, "20240101"⟩ ⟨"B", "H", "A"⟩ "n"
        ⟨[("a.sql", "x")], false, []⟩).fs.migDir.length ≠
      ([("a.sql", "x")] : List (String × String)).length := by
  decide

/-- C2 amended: with delete = true and backup = false the run refuses
deletion before any destructive action: the deletion prompt is never
issued and every discovered migration file keeps its exact content; the
directory is however not unchanged in general, because the consolidated
artifact (and, when renaming, the init copy) are still written. -/
theorem delete_without_backup_refused (opts : Options) (t : RunTimes) (confirm : String)
    (fs : FS) (_hd : opts.delete = true) (hb : opts.backup = false) :
    (∀ f ∈ discoverNames (fs.migDir.map (fun p => p.1)) opts,
       lookupFile (consolidate_migrations opts t confirm fs).fs.migDir f =
         lookupFile fs.migDir f) ∧
    (∀ e ∈ (consolidate_migrations opts t confirm fs).trace, ∀ r : String,
       e ≠ Event.promptDelete r) := by
  unfold consolidate_migrations
  by_cases hempty : (discoverNames (fs.migDir.map (fun p => p.1)) opts).isEmpty = true
  · rw [if_pos hempty]
    constructor
    · intro f hf
      rfl
    · intro e he
      simp at he
  · rw [if_neg hempty]
    constructor
    · intro f hf
      have hspec := discovered_ne_special _ _ _ hf
      exact runStages_lookup_preserved opts t confirm _ fs f hspec.1 hspec.2.1 hspec.2.2
        (Or.inl hb)
    · exact runStages_no_prompt_without_backup opts t confirm _ fs hb

/-- Witness for the amended C2 at a concrete state. -/
theorem delete_without_backup_refused_witness :
    lookupFile (consolidate_migrations ⟨false, true, false, "20240101"⟩ ⟨"B", "H", "A"⟩ "n"
        ⟨[("a.sql", "x")], false, []⟩).fs.migDir "a.sql" =
      lookupFile [("a.sql", "x")] "a.sql" :=
  (delete_without_backup_refused ⟨false, true, false, "20240101"⟩ ⟨"B", "H", "A"⟩ "n"
      ⟨[("a.sql", "x")], false, []⟩ rfl rfl).1 "a.sql" (by decide)


/-! ### Claim C3 -/

/-- The migrations-directory path an event writes or removes, if any. -/
def migDirWriteTarget : Event → Option String
  | Event.writeTemp _ => some tempName
  | Event.moveTempToOutput _ => some outputName
  | Event.copyToMigDir n _ => some n
  | Event.removeFile n => some n
  | _ => none

theorem copyAll_trace_targets (sub : String) (names : List String) (fs : FS) :
    ∀ e ∈ (copyAll sub names fs).2, migDirWriteTarget e = none := by
  induction names generalizing fs with
  | nil =>
    intro e he
    simp [copyAll] at he
  | cons f rest ih =>
    intro e he
    simp only [copyAll, List.mem_cons] at he
    rcases he with he | he
    · rw [he]
      rfl
    · exact ih _ e he

theorem backupStage_trace_targets (ts : String) (names : List String) (fs : FS) :
    ∀ e ∈ (backupStage ts names fs).trace, migDirWriteTarget e = none := by
  intro e he
  unfold backupStage backup_migrations at he
  simp only [List.mem_append, List.mem_cons] at he
  rcases he with he | he | he
  · unfold create_backup_dir at he
    split at he
    · simp at he
    · simp at he
      rw [he]
      rfl
  · rw [he]
    rfl
  · exact copyAll_trace_targets _ _ _ e he

theorem create_backup_dir_trace_targets (fs : FS) :
    ∀ e ∈ (create_backup_dir fs).2, migDirWriteTarget e = none := by
  intro e he
  unfold create_backup_dir at he
  split at he
  · simp at he
  · simp at he
    rw [he]
    rfl

theorem moveTempStage_backups (fs : FS) : (moveTempStage fs).fs.backups = fs.backups := rfl

theorem delete_migrations_backups (names : List String) (fs : FS) :
    (delete_migrations names fs).1.backups = fs.backups := by
  induction names generalizing fs with
  | nil => rfl
  | cons f rest ih => simp [delete_migrations, ih]

theorem deleteStage_backups (opts : Options) (names : List String) (confirm : String)
    (fs : FS) : (deleteStage opts names confirm fs).fs.backups = fs.backups := by
  unfold deleteStage
  split
  · rfl
  split
  · simp only
    exact delete_migrations_backups _ _
  · rfl

theorem rename_to_init_backups_lookup_ne (ts : String) (fs : FS) (key : String)
    (h : key ≠ ts ++ "_initial_schema.sql" ++ ".bak") :
    lookupFile (rename_to_init ts fs).fs.backups key = lookupFile fs.backups key := by
  unfold rename_to_init
  split
  · split
    · simp only
      rw [lookupFile_setEntry_ne _ _ _ _ h]
    · rfl
  · rfl


theorem append_decomp (a b c tail : List Event) (cp mv : Event) :
    a ++ (b ++ (c ++ [cp] ++ ([mv] ++ tail))) =
      (a ++ (b ++ c)) ++ cp :: mv :: tail := by
  simp [List.append_assoc]

/-- C3: when an artifact pre-exists and discovery is non-empty, every
write in the trace before the artifact backup targets only the temp
path, the backup copy of the old artifact into the backup root appears
immediately before the move of the temp file into place, and the old
artifact content is still present in the backup root when the run ends. -/
theorem backup_old_artifact_before_move (opts : Options) (t : RunTimes) (confirm : String)
    (fs : FS) (names : List String) (old : String)
    (hnames : discoverNames (fs.migDir.map (fun p => p.1)) opts = names)
    (hne : names ≠ [])
    (hold : lookupFile fs.migDir outputName = some old) :
    ∃ t1 t2 : List Event,
      (consolidate_migrations opts t confirm fs).trace =
        t1 ++ Event.copyToBackup ("consolidated_migration_" ++ t.artifactBackupTs ++ ".sql") old ::
          Event.moveTempToOutput
            (tempFileContent t.headerTs names (fun f => lookupD fs.migDir f "")) :: t2 ∧
      (∀ e ∈ t1, migDirWriteTarget e = none ∨ migDirWriteTarget e = some tempName) ∧
      lookupFile (consolidate_migrations opts t confirm fs).fs.backups
        ("consolidated_migration_" ++ t.artifactBackupTs ++ ".sql") = some old := by
  have hempty : names.isEmpty = false := by
    cases names with
    | nil => exact absurd rfl hne
    | cons a l => rfl
  have houtne : outputName ≠ tempName := fun hc => tempName_ne_outputName hc.symm
  unfold consolidate_migrations
  rw [hnames, hempty]
  simp only [Bool.false_eq_true, if_false]
  unfold runStages
  rw [seqStage_of_ok _ _ (backupSkip_ok opts t.backupTs names fs),
      seqStage_of_ok _ _ rfl,
      seqStage_of_ok _ _ (backupOldArtifactStage_ok _ _),
      seqStage_of_ok _ _ rfl]
  simp only
  have h1mig : (if opts.backup then backupStage t.backupTs names fs
      else (⟨fs, [], true⟩ : StageOut)).fs.migDir = fs.migDir :=
    backupSkip_migDir opts t.backupTs names fs
  have hs2trace : (writeTempStage t.headerTs names
      (if opts.backup then backupStage t.backupTs names fs
        else (⟨fs, [], true⟩ : StageOut)).fs).trace =
      [Event.writeTemp (tempFileContent t.headerTs names (fun f => lookupD fs.migDir f ""))] := by
    unfold writeTempStage
    simp only
    rw [h1mig]
  have hout2 : lookupFile (writeTempStage t.headerTs names
      (if opts.backup then backupStage t.backupTs names fs
        else (⟨fs, [], true⟩ : StageOut)).fs).fs.migDir outputName = some old := by
    unfold writeTempStage
    simp only
    rw [lookupFile_setEntry_ne _ _ _ _ houtne, h1mig, hold]
  have hs3eq : backupOldArtifactStage t.artifactBackupTs (writeTempStage t.headerTs names
      (if opts.backup then backupStage t.backupTs names fs
        else (⟨fs, [], true⟩ : StageOut)).fs).fs =
      ⟨{(create_backup_dir (writeTempStage t.headerTs names
          (if opts.backup then backupStage t.backupTs names fs
            else (⟨fs, [], true⟩ : StageOut)).fs).fs).1 with
          backups := setEntry (create_backup_dir (writeTempStage t.headerTs names
            (if opts.backup then backupStage t.backupTs names fs
              else (⟨fs, [], true⟩ : StageOut)).fs).fs).1.backups
            ("consolidated_migration_" ++ t.artifactBackupTs ++ ".sql") old},
       (create_backup_dir (writeTempStage t.headerTs names
          (if opts.backup then backupStage t.backupTs names fs
            else (⟨fs, [], true⟩ : StageOut)).fs).fs).2 ++
         [Event.copyToBackup ("consolidated_migration_" ++ t.artifactBackupTs ++ ".sql") old],
       true⟩ := by
    unfold backupOldArtifactStage
    rw [hout2]
  have htempc : lookupD (backupOldArtifactStage t.artifactBackupTs (writeTempStage t.headerTs names
      (if opts.backup then backupStage t.backupTs names fs
        else (⟨fs, [], true⟩ : StageOut)).fs).fs).fs.migDir tempName "" =
      tempFileContent t.headerTs names (fun f => lookupD fs.migDir f "") := by
    rw [backupOldArtifactStage_migDir]
    unfold writeTempStage
    simp only
    unfold lookupD
    rw [lookupFile_setEntry_self]
    simp only [Option.getD_some]
    rw [h1mig]
  have hs4trace : (moveTempStage (backupOldArtifactStage t.artifactBackupTs
      (writeTempStage t.headerTs names
        (if opts.backup then backupStage t.backupTs names fs
          else (⟨fs, [], true⟩ : StageOut)).fs).fs).fs).trace =
      [Event.moveTempToOutput
        (tempFileContent t.headerTs names (fun f => lookupD fs.migDir f ""))] := by
    unfold moveTempStage
    simp only
    rw [htempc]
  have hs3trace : (backupOldArtifactStage t.artifactBackupTs (writeTempStage t.headerTs names
      (if opts.backup then backupStage t.backupTs names fs
        else (⟨fs, [], true⟩ : StageOut)).fs).fs).trace =
      (create_backup_dir (writeTempStage t.headerTs names
        (if opts.backup then backupStage t.backupTs names fs
          else (⟨fs, [], true⟩ : StageOut)).fs).fs).2 ++
        [Event.copyToBackup ("consolidated_migration_" ++ t.artifactBackupTs ++ ".sql") old] := by
    rw [hs3eq]
  have hbackups3 : lookupFile (backupOldArtifactStage t.artifactBackupTs
      (writeTempStage t.headerTs names
        (if opts.backup then backupStage t.backupTs names fs
          else (⟨fs, [], true⟩ : StageOut)).fs).fs).fs.backups
      ("consolidated_migration_" ++ t.artifactBackupTs ++ ".sql") = some old := by
    rw [hs3eq]
    simp only
    exact lookupFile_setEntry_self _ _ _
  rw [hs2trace, hs3trace, hs4trace]
  refine ⟨_, _, append_decomp _ _ _ _ _ _, ?_, ?_⟩
  · intro e he
    simp only [List.mem_append, List.mem_singleton] at he
    rcases he with he | he | he
    · left
      by_cases hbk : opts.backup = true
      · rw [if_pos hbk] at he
        exact backupStage_trace_targets _ _ _ e he
      · rw [if_neg hbk] at he
        simp at he
    · right
      rw [he]
      rfl
    · left
      exact create_backup_dir_trace_targets _ e he
  · have h5b : ∀ fs4 : FS,
        lookupFile (if opts.rename then rename_to_init opts.timestamp fs4
          else (⟨fs4, [], true⟩ : StageOut)).fs.backups
          ("consolidated_migration_" ++ t.artifactBackupTs ++ ".sql") =
          lookupFile fs4.backups ("consolidated_migration_" ++ t.artifactBackupTs ++ ".sql") := by
      intro fs4
      by_cases hr : opts.rename = true
      · rw [if_pos hr]
        exact rename_to_init_backups_lookup_ne _ _ _
          (fun hc => bak_key_ne_artifact_key _ _ hc.symm)
      · rw [if_neg hr]
    have h6b : ∀ fs5 : FS,
        lookupFile (if opts.delete then deleteStage opts names confirm fs5
          else (⟨fs5, [], true⟩ : StageOut)).fs.backups
          ("consolidated_migration_" ++ t.artifactBackupTs ++ ".sql") =
          lookupFile fs5.backups ("consolidated_migration_" ++ t.artifactBackupTs ++ ".sql") := by
      intro fs5
      by_cases hd : opts.delete = true
      · rw [if_pos hd, deleteStage_backups]
      · rw [if_neg hd]
    set s4 := moveTempStage (backupOldArtifactStage t.artifactBackupTs
      (writeTempStage t.headerTs names
        (if opts.backup then backupStage t.backupTs names fs
          else (⟨fs, [], true⟩ : StageOut)).fs).fs).fs with hs4
    set s5 := if opts.rename then rename_to_init opts.timestamp s4.fs
      else (⟨s4.fs, [], true⟩ : StageOut) with hs5
    have hchain : lookupFile s4.fs.backups
        ("consolidated_migration_" ++ t.artifactBackupTs ++ ".sql") = some old := by
      rw [hs4, moveTempStage_backups]
      exact hbackups3
    cases hok : s5.ok
    · rw [seqStage_of_err _ _ hok]
      rw [hs5, h5b s4.fs]
      exact hchain
    · rw [seqStage_of_ok _ _ hok]
      simp only
      rw [h6b, hs5, h5b s4.fs]
      exact hchain

/-- Witness for C3 at a concrete state with a pre-existing artifact. -/
theorem backup_old_artifact_before_move_witness :
    ∃ t1 t2 : List Event,
      (consolidate_migrations ⟨true, false, false, "TS"⟩ ⟨"B", "H", "A"⟩ "n"
          ⟨[("a.sql", "x"), ("consolidated_migration.sql", "oldart")], false, []⟩).trace =
        t1 ++ Event.copyToBackup ("consolidated_migration_" ++ "A" ++ ".sql") "oldart" ::
          Event.moveTempToOutput (tempFileContent "H" ["a.sql"]
            (fun f => lookupD [("a.sql", "x"), ("consolidated_migration.sql", "oldart")] f "")) ::
          t2 ∧
      (∀ e ∈ t1, migDirWriteTarget e = none ∨ migDirWriteTarget e = some tempName) ∧
      lookupFile (consolidate_migrations ⟨true, false, false, "TS"⟩ ⟨"B", "H", "A"⟩ "n"
          ⟨[("a.sql", "x"), ("consolidated_migration.sql", "oldart")], false, []⟩).fs.backups
        ("consolidated_migration_" ++ "A" ++ ".sql") = some "oldart" :=
  backup_old_artifact_before_move ⟨true, false, false, "TS"⟩ ⟨"B", "H", "A"⟩ "n"
    ⟨[("a.sql", "x"), ("consolidated_migration.sql", "oldart")], false, []⟩ ["a.sql"] "oldart"
    (by decide) (by decide) (by decide)

end Consolidator
